import Mathlib

/-!
Verification model of the i18n-center versioned translation store
(`backend/services/translation_service.go`), its template-preserving
translator (`ExtractTemplateValues` / `PreserveTemplateValues`), the
structured translator (`TranslateJSON` in `openai_service.go`) and the
backfill orchestrator (`BackfillTranslations` in the translation handler).

Strings manipulated by the translator are modelled as `List Char`.
The Go regular expression is the fixed pattern whose matches are:
a literal opening bracket, one or more characters none of which is a
closing bracket (greedy, so the content runs to the nearest closing
bracket), then a closing bracket.  `FindAllStringSubmatch` returns the
successive leftmost matches.  That search is implemented below as a
single left-to-right scan with one piece of state: `none` while outside
a candidate match, `some acc` after an opening bracket has been seen
with `acc` the content accumulated so far (closing brackets never enter
`acc`; an immediately following closing bracket, i.e. an empty pair,
yields no match, exactly as the pattern requires at least one content
character).
-/

namespace I18n

/-- One regex match of the template pattern: `(full match, capture group)`.
`findAllSubmatchAux st text` returns the matches of the remaining `text`
given the scanner state `st`. -/
def findAllSubmatchAux : Option (List Char) → List Char → List (List Char × List Char)
  | _, [] => []
  | none, c :: rest =>
      if c = '[' then findAllSubmatchAux (some []) rest
      else findAllSubmatchAux none rest
  | some acc, c :: rest =>
      if c = ']' then
        if acc = [] then findAllSubmatchAux none rest
        else ('[' :: acc ++ [']'], acc) :: findAllSubmatchAux none rest
      else findAllSubmatchAux (some (acc ++ [c])) rest

/-- `regexp.FindAllStringSubmatch(text, -1)` for the template pattern. -/
def findAllSubmatch (text : List Char) : List (List Char × List Char) :=
  findAllSubmatchAux none text

/-- Go `ExtractTemplateValues`: the capture groups of all matches, in order. -/
def ExtractTemplateValues (text : List Char) : List (List Char) :=
  (findAllSubmatch text).map (fun m => m.2)

/-- Go `strings.Contains s sub`. -/
def containsSub : List Char → List Char → Bool
  | [], sub => sub.isEmpty
  | c :: rest, sub => sub.isPrefixOf (c :: rest) || containsSub rest sub

/-- Go `strings.Replace s old new 1`: replace the first occurrence of
`old` in `s` (with `old` empty, insert `new` in front). -/
def replaceFirst (old new : List Char) : List Char → List Char
  | [] => if old = [] then new else []
  | c :: rest =>
      if old.isPrefixOf (c :: rest) then new ++ (c :: rest).drop old.length
      else c :: replaceFirst old new rest

/-- The loop body of Go `PreserveTemplateValues`: `i` is the running index
into the original template values, `result` the current translated text;
each iteration recomputes the matches of the current `result`. -/
def preserveLoop (i : Nat) (values : List (List Char)) (result : List Char) : List Char :=
  match values with
  | [] => result
  | value :: rest =>
      preserveLoop (i + 1) rest
        (if containsSub result ('[' :: value ++ [']']) then result
         else
           match (findAllSubmatch result)[i]? with
           | some m => replaceFirst m.1 ('[' :: value ++ [']']) result
           | none => result)

/-- Go `PreserveTemplateValues text translatedText`. -/
def PreserveTemplateValues (text translatedText : List Char) : List Char :=
  let templateValues := ExtractTemplateValues text
  if templateValues.isEmpty then translatedText
  else preserveLoop 0 templateValues translatedText

/-- Modelled from the spec words for restoration: replace the
bracket-delimited token at ordinal position `n` of the text (counting the
regex matches left to right) by `repl`.  Text outside matches, empty
bracket pairs and an unclosed trailing bracket are emitted unchanged. -/
def replaceNthMatchAux (repl : List Char) : Nat → Option (List Char) → List Char → List Char
  | _, none, [] => []
  | _, some acc, [] => '[' :: acc
  | n, none, c :: rest =>
      if c = '[' then replaceNthMatchAux repl n (some []) rest
      else c :: replaceNthMatchAux repl n none rest
  | n, some acc, c :: rest =>
      if c = ']' then
        if acc = [] then '[' :: ']' :: replaceNthMatchAux repl n none rest
        else
          match n with
          | 0 => repl ++ rest
          | m + 1 => ('[' :: acc ++ [']']) ++ replaceNthMatchAux repl m none rest
      else replaceNthMatchAux repl n (some (acc ++ [c])) rest

/-- Spec-side positional repair of one text. -/
def replaceNthMatch (text : List Char) (n : Nat) (repl : List Char) : List Char :=
  replaceNthMatchAux repl n none text

/-- Modelled from the spec words (claim reading of restoration): for each
original placeholder missing from the current text, the token *at the same
ordinal position* of the current text is replaced in place. -/
def positionalRestoreLoop (i : Nat) (values : List (List Char)) (result : List Char) : List Char :=
  match values with
  | [] => result
  | value :: rest =>
      positionalRestoreLoop (i + 1) rest
        (if containsSub result ('[' :: value ++ [']']) then result
         else if i < (findAllSubmatch result).length then
           replaceNthMatch result i ('[' :: value ++ [']'])
         else result)

/-- Spec-side positional restoration (the claim as stated). -/
def positionalRestore (text translatedText : List Char) : List Char :=
  let values := ExtractTemplateValues text
  if values.isEmpty then translatedText
  else positionalRestoreLoop 0 values translatedText

/-- Amended description of restoration: for each missing original
placeholder, the *first occurrence* of the text of the bracket-delimited
token found at the same ordinal position is replaced. -/
def firstOccurrenceRestoreLoop (i : Nat) (values : List (List Char)) (result : List Char) : List Char :=
  match values with
  | [] => result
  | value :: rest =>
      firstOccurrenceRestoreLoop (i + 1) rest
        (if containsSub result ('[' :: value ++ [']']) then result
         else
           match (ExtractTemplateValues result)[i]? with
           | some tok => replaceFirst ('[' :: tok ++ [']']) ('[' :: value ++ [']']) result
           | none => result)

/-- Amended restoration semantics, assembled like the code. -/
def firstOccurrenceRestore (text translatedText : List Char) : List Char :=
  let values := ExtractTemplateValues text
  if values.isEmpty then translatedText
  else firstOccurrenceRestoreLoop 0 values translatedText

/-!
The versioned translation store.  A `TranslationVersion` row carries the
fields the service reads or writes; the UUID primary key is modelled by a
`Nat` drawn from a fresh-id counter, UUID-valued actor fields by `String`
(`""` standing for the zero UUID), timestamps are omitted.  The payload
type is a parameter `α`: the service never inspects payloads.  A `Store`
is the entity store (rows, in insertion order) together with the id
counter and the Redis cache, modelled as an association list from cache
key to the cached row.
-/

structure TranslationVersion (α : Type) where
  ID : Nat
  ComponentID : String
  Locale : String
  Stage : String
  Version : Nat
  Data : α
  IsActive : Bool
  CreatedBy : String
  UpdatedBy : String
deriving DecidableEq

structure Store (α : Type) where
  rows : List (TranslationVersion α)
  nextId : Nat
  cache : List (String × TranslationVersion α)
deriving DecidableEq

/-- Go `cache.TranslationKey`. -/
def translationKey (componentID locale stage : String) : String :=
  "translation:" ++ componentID ++ ":" ++ locale ++ ":" ++ stage

/-- Go `cache.ComponentKey`. -/
def componentKey (componentID : String) : String :=
  "component:" ++ componentID

/-- Go `cache.Get` (a hit returns the cached row). -/
def cacheGet {α : Type} (c : List (String × TranslationVersion α)) (k : String) :
    Option (TranslationVersion α) :=
  (c.find? (fun e => e.1 == k)).map (fun e => e.2)

/-- Go `cache.Set` (Redis SET overwrites the key). -/
def cacheSet {α : Type} (c : List (String × TranslationVersion α)) (k : String)
    (v : TranslationVersion α) : List (String × TranslationVersion α) :=
  (k, v) :: c.filter (fun e => !(e.1 == k))

/-- Go `cache.Delete`. -/
def cacheDelete {α : Type} (c : List (String × TranslationVersion α)) (k : String) :
    List (String × TranslationVersion α) :=
  c.filter (fun e => !(e.1 == k))

/-- The row predicate `component_id = ? AND locale = ? AND stage = ?`. -/
def keyMatch {α : Type} (cid loc stg : String) (r : TranslationVersion α) : Bool :=
  r.ComponentID == cid && r.Locale == loc && r.Stage == stg

/-- `DB.Where(key ∧ is_active ∧ version).First`: the read-path point query. -/
def firstActiveVer {α : Type} (rows : List (TranslationVersion α)) (cid loc stg : String)
    (ver : Nat) : Option (TranslationVersion α) :=
  rows.find? (fun r => keyMatch cid loc stg r && r.IsActive && r.Version == ver)

/-- `DB.Where(key ∧ version).First`: the write-path point query (no
`is_active` filter, exactly as in `SaveTranslation` / `RevertTranslation`). -/
def firstVer {α : Type} (rows : List (TranslationVersion α)) (cid loc stg : String)
    (ver : Nat) : Option (TranslationVersion α) :=
  rows.find? (fun r => keyMatch cid loc stg r && r.Version == ver)

/-- gorm `DB.Save(&row)`: in-place update by primary key. -/
def updateRow {α : Type} (rows : List (TranslationVersion α)) (r : TranslationVersion α) :
    List (TranslationVersion α) :=
  rows.map (fun x => if x.ID = r.ID then r else x)

/-- Go `database.CleanupOldVersions`: delete every row with `version > 2`. -/
def cleanupOldVersions {α : Type} (rows : List (TranslationVersion α)) :
    List (TranslationVersion α) :=
  rows.filter (fun r => decide (r.Version ≤ 2))

/-- Go `GetTranslation`: cache, then active slot 2, then active slot 1;
а hit from the store populates the cache.  `none` models the NotFound
error. -/
def GetTranslation {α : Type} (s : Store α) (cid loc stg : String) :
    Option (TranslationVersion α) × Store α :=
  match cacheGet s.cache (translationKey cid loc stg) with
  | some r => (some r, s)
  | none =>
      match firstActiveVer s.rows cid loc stg 2 with
      | some t => (some t, { s with cache := cacheSet s.cache (translationKey cid loc stg) t })
      | none =>
          match firstActiveVer s.rows cid loc stg 1 with
          | some t => (some t, { s with cache := cacheSet s.cache (translationKey cid loc stg) t })
          | none => (none, s)

/-- Go `SaveTranslation`.  The two Booleans inject entity-store write
failures at the two fallible writes the code performs: `v2WriteFails`
makes the slot-2 create/update return its error (which the code
propagates), `v1CreateFails` makes the slot-1 `Create` fail (the code
discards that error and carries on). -/
def SaveTranslation {α : Type} (v2WriteFails v1CreateFails : Bool) (s : Store α)
    (cid loc stg : String) (data : α) (userID : String) :
    Except String (TranslationVersion α × Store α) :=
  let afterV2 : Except String (TranslationVersion α × Store α) :=
    match firstVer s.rows cid loc stg 2 with
    | none =>
        if v2WriteFails then .error "persistence error"
        else
          let row : TranslationVersion α :=
            ⟨s.nextId, cid, loc, stg, 2, data, true, userID, userID⟩
          .ok (row, { s with rows := s.rows ++ [row], nextId := s.nextId + 1 })
    | some existing =>
        if v2WriteFails then .error "persistence error"
        else
          let updated := { existing with Data := data, UpdatedBy := userID }
          .ok (updated, { s with rows := updateRow s.rows updated })
  match afterV2 with
  | .error e => .error e
  | .ok (row, s1) =>
      let s2 :=
        match firstVer s1.rows cid loc stg 1 with
        | none =>
            if v1CreateFails then s1
            else
              let beforeSave : TranslationVersion α :=
                ⟨s1.nextId, cid, loc, stg, 1, data, true, "", ""⟩
              { s1 with rows := s1.rows ++ [beforeSave], nextId := s1.nextId + 1 }
        | some _ => s1
      let s3 := { s2 with
        cache := cacheDelete (cacheDelete s2.cache (translationKey cid loc stg))
          (componentKey cid) }
      let s4 := { s3 with rows := cleanupOldVersions s3.rows }
      .ok (row, s4)

/-- Go `RevertTranslation`; `none` models the "no previous version found"
error.  When no slot-2 row exists the code returns straight from the
`Create`, *before* the cache invalidation, and that is reproduced here. -/
def RevertTranslation {α : Type} (s : Store α) (cid loc stg : String) : Option (Store α) :=
  match firstVer s.rows cid loc stg 1 with
  | none => none
  | some version1 =>
      match firstVer s.rows cid loc stg 2 with
      | none =>
          let row : TranslationVersion α :=
            ⟨s.nextId, cid, loc, stg, 2, version1.Data, true, "", ""⟩
          some { s with rows := s.rows ++ [row], nextId := s.nextId + 1 }
      | some version2 =>
          let v2 := { version2 with Data := version1.Data }
          let s1 := { s with rows := updateRow s.rows v2 }
          some { s1 with cache := cacheDelete s1.cache (translationKey cid loc stg) }

/-- Go map assignment `m[k] = v`. -/
def mapUpsert {α : Type} (m : List (String × TranslationVersion α)) (k : String)
    (v : TranslationVersion α) : List (String × TranslationVersion α) :=
  if m.any (fun e => e.1 == k) then m.map (fun e => if e.1 == k then (k, v) else e)
  else m ++ [(k, v)]

/-- Pass 1 of `GetMultipleTranslations`: probe the cache for every
requested component, splitting into result-map hits and the
`missingFromCache` list. -/
def cacheProbe {α : Type} (s : Store α) (loc stg : String)
    (acc : List (String × TranslationVersion α) × List String) :
    List String → List (String × TranslationVersion α) × List String
  | [] => acc
  | cid :: rest =>
      match cacheGet s.cache (translationKey cid loc stg) with
      | some r => cacheProbe s loc stg (mapUpsert acc.1 cid r, acc.2) rest
      | none => cacheProbe s loc stg (acc.1, acc.2 ++ [cid]) rest

/-- The per-row loop of passes 2 and 3 of `GetMultipleTranslations`: add
each row found by a batched query to the result map and cache it. -/
def insertAll {α : Type} (loc stg : String)
    (acc : List (String × TranslationVersion α) × Store α) :
    List (TranslationVersion α) → List (String × TranslationVersion α) × Store α
  | [] => acc
  | t :: rest =>
      insertAll loc stg
        (mapUpsert acc.1 t.ComponentID t,
         { acc.2 with cache := cacheSet acc.2.cache (translationKey t.ComponentID loc stg) t })
        rest

/-- Go `GetMultipleTranslations`.  `v2QueryFails` injects an entity-store
error on the batched slot-2 query: the code then skips the whole database
block (`if err == nil`) and still returns `results, nil`.  `v1QueryFails`
injects an error on the batched slot-1 query, whose error value the code
never reads (the rows slice stays empty).  The function never returns
`.error`, exactly as the Go function always returns a nil error. -/
def GetMultipleTranslations {α : Type} (v2QueryFails v1QueryFails : Bool) (s : Store α)
    (componentIDs : List String) (loc stg : String) :
    Except String (List (String × TranslationVersion α) × Store α) :=
  let pass1 := cacheProbe s loc stg ([], []) componentIDs
  let results := pass1.1
  let missing := pass1.2
  if missing.isEmpty then .ok (results, s)
  else if v2QueryFails then .ok (results, s)
  else
    let translations := s.rows.filter (fun r =>
      missing.contains r.ComponentID && r.Locale == loc && r.Stage == stg &&
        r.IsActive && r.Version == 2)
    let step2 := insertAll loc stg (results, s) translations
    let foundIDs := translations.map (fun t => t.ComponentID)
    let stillMissing := missing.filter (fun cid => !(foundIDs.contains cid))
    if stillMissing.isEmpty then .ok step2
    else
      let version1Translations :=
        if v1QueryFails then []
        else s.rows.filter (fun r =>
          stillMissing.contains r.ComponentID && r.Locale == loc && r.Stage == stg &&
            r.IsActive && r.Version == 1)
      .ok (insertAll loc stg step2 version1Translations)

/-- Go handler `BackfillTranslations`, from the already-fetched source
payload on: walk the target locales in order; translate (the external
engine `tr` is fallible), then save.  `f2 l` / `f1 l` inject the same
entity-store failures as in `SaveTranslation` for the save of locale `l`.
The pair returned is the handler response (the saved rows, or the error
message it reports) together with the final store state. -/
def BackfillTranslations {α : Type} (tr : String → Except String α) (f2 f1 : String → Bool)
    (s : Store α) (cid : String) (targetLocales : List String) (stg uid : String) :
    Except String (List (TranslationVersion α)) × Store α :=
  match targetLocales with
  | [] => (.ok [], s)
  | l :: rest =>
      match tr l with
      | .error e => (.error ("Failed to translate to " ++ l ++ ": " ++ e), s)
      | .ok data =>
          match SaveTranslation (f2 l) (f1 l) s cid l stg data uid with
          | .error _ => (.error ("Failed to save translation for " ++ l), s)
          | .ok (row, s1) =>
              match BackfillTranslations tr f2 f1 s1 cid rest stg uid with
              | (.ok rows, s2) => (.ok (row :: rows), s2)
              | (.error e, s2) => (.error e, s2)

/-- The success path of the backfill loop in isolation: translate and save
each locale in order, collecting the saved rows; a failing translate or
save simply stops (those branches are dead under the hypotheses of the
theorems that use it). -/
def backfillSaves {α : Type} (tr : String → Except String α) (f2 f1 : String → Bool)
    (s : Store α) (cid : String) (stg uid : String) :
    List String → List (TranslationVersion α) × Store α
  | [] => ([], s)
  | l :: rest =>
      match tr l with
      | .error _ => ([], s)
      | .ok data =>
          match SaveTranslation (f2 l) (f1 l) s cid l stg data uid with
          | .error _ => ([], s)
          | .ok (row, s1) =>
              let p := backfillSaves tr f2 f1 s1 cid stg uid rest
              (row :: p.1, p.2)

/-!
Structured translation (`TranslateJSON` in `openai_service.go`).  The Go
payload `map[string]interface{}` is modelled as an association list; a
value is a string leaf, a nested object, or anything else (number,
boolean, list, null), collapsed to an opaque `prim` since the code passes
such values through untouched.
-/

mutual
inductive JValue : Type where
  | str : String → JValue
  | obj : JObject → JValue
  | prim : Int → JValue
deriving DecidableEq
inductive JObject : Type where
  | nil : JObject
  | cons : String → JValue → JObject → JObject
deriving DecidableEq
end

/-- Go `TranslateJSON`, with the per-string engine call abstracted as
`tr`: string leaves are translated (an engine error is wrapped with the
failing key and aborts everything), nested objects recurse (their errors
propagate unwrapped), all other values are copied. -/
def TranslateJSON (tr : String → Except String String) : JObject → Except String JObject
  | .nil => .ok .nil
  | .cons key (.str v) rest =>
      match tr v with
      | .error e => .error ("error translating key " ++ key ++ ": " ++ e)
      | .ok t =>
          match TranslateJSON tr rest with
          | .error e => .error e
          | .ok r => .ok (.cons key (.str t) r)
  | .cons key (.obj m) rest =>
      match TranslateJSON tr m with
      | .error e => .error e
      | .ok tm =>
          match TranslateJSON tr rest with
          | .error e => .error e
          | .ok r => .ok (.cons key (.obj tm) r)
  | .cons key (.prim x) rest =>
      match TranslateJSON tr rest with
      | .error e => .error e
      | .ok r => .ok (.cons key (.prim x) r)

mutual
/-- Forget every leaf, keeping only the nested key structure. -/
def keyShapeV : JValue → JValue
  | .str _ => .prim 0
  | .prim _ => .prim 0
  | .obj m => .obj (keyShapeO m)
/-- Key structure of an object, at every nesting level. -/
def keyShapeO : JObject → JObject
  | .nil => .nil
  | .cons k v r => .cons k (keyShapeV v) (keyShapeO r)
end

/-!
Concrete states used to exercise the operations at specific inputs.
-/

/-- A stale cached row for the key `("c1", "en", "draft")`. -/
def c3StaleRow : TranslationVersion Nat :=
  ⟨9, "c1", "en", "draft", 2, 99, true, "", ""⟩

/-- A store holding only a slot-1 row for `("c1", "en", "draft")` while the
cache still holds a stale entry for that key (the entity store was
populated externally; the cache entry is what `GetTranslation` would have
left behind). -/
def c3Store : Store Nat :=
  ⟨[⟨5, "c1", "en", "draft", 1, 7, true, "", ""⟩], 10,
   [(translationKey "c1" "en" "draft", c3StaleRow)]⟩

/-- An active slot-2 row for component `"c1"`. -/
def c4Row : TranslationVersion Nat :=
  ⟨1, "c1", "en", "draft", 2, 42, true, "u", "u"⟩

/-- A store with data for `"c1"` and an empty cache. -/
def c4Store : Store Nat :=
  ⟨[c4Row], 2, []⟩

/-- An active slot-1-only row for component `"c2"`. -/
def c6RowV1 : TranslationVersion Nat :=
  ⟨3, "c2", "en", "draft", 1, 7, true, "", ""⟩

/-- A store where `"c1"` has a slot-2 row and `"c2"` only a slot-1 row. -/
def c6Store : Store Nat :=
  ⟨[c4Row, c6RowV1], 4, []⟩

/-- A store with no rows and nothing cached. -/
def emptyStore : Store Nat := ⟨[], 0, []⟩

/-- A translation engine that fails on `"es"` and succeeds elsewhere. -/
def c5tr : String → Except String Nat :=
  fun l => if l = "es" then .error "quota" else .ok 5

/-- No injected entity-store failures. -/
def noFail : String → Bool := fun _ => false

/-!
Theorems.  First the template-preserving translator.
-/

theorem findAllSubmatchAux_wellformed :
    ∀ (t : List Char) (st : Option (List Char)),
      (∀ acc, st = some acc → ']' ∉ acc) →
      ∀ m ∈ findAllSubmatchAux st t, m.2 ≠ [] ∧ ']' ∉ m.2 := by
  intro t
  induction t with
  | nil =>
    intro st hst m hm
    cases st <;> simp [findAllSubmatchAux] at hm
  | cons c rest ih =>
    intro st hst m hm
    cases st with
    | none =>
      by_cases hc : c = '['
      · simp only [findAllSubmatchAux, if_pos hc] at hm
        refine ih (some []) ?_ m hm
        intro acc h
        cases h
        simp
      · simp only [findAllSubmatchAux, if_neg hc] at hm
        exact ih none (by intro acc h; cases h) m hm
    | some acc =>
      by_cases hc : c = ']'
      · by_cases ha : acc = []
        · simp only [findAllSubmatchAux, if_pos hc, if_pos ha] at hm
          exact ih none (by intro a h; cases h) m hm
        · simp only [findAllSubmatchAux, if_pos hc, if_neg ha] at hm
          rcases List.mem_cons.mp hm with h | h
          · subst h
            exact ⟨ha, hst acc rfl⟩
          · exact ih none (by intro a h2; cases h2) m h
      · simp only [findAllSubmatchAux, if_neg hc] at hm
        refine ih (some (acc ++ [c])) ?_ m hm
        intro a h
        cases h
        intro hmem
        rcases List.mem_append.mp hmem with h1 | h1
        · exact hst acc rfl h1
        · simp only [List.mem_singleton] at h1
          exact hc h1.symm

theorem findAllSubmatchAux_full :
    ∀ (t : List Char) (st : Option (List Char)),
      ∀ m ∈ findAllSubmatchAux st t, m.1 = '[' :: m.2 ++ [']'] := by
  intro t
  induction t with
  | nil =>
    intro st m hm
    cases st <;> simp [findAllSubmatchAux] at hm
  | cons c rest ih =>
    intro st m hm
    cases st with
    | none =>
      by_cases hc : c = '['
      · simp only [findAllSubmatchAux, if_pos hc] at hm
        exact ih _ m hm
      · simp only [findAllSubmatchAux, if_neg hc] at hm
        exact ih _ m hm
    | some acc =>
      by_cases hc : c = ']'
      · by_cases ha : acc = []
        · simp only [findAllSubmatchAux, if_pos hc, if_pos ha] at hm
          exact ih _ m hm
        · simp only [findAllSubmatchAux, if_pos hc, if_neg ha] at hm
          rcases List.mem_cons.mp hm with h | h
          · subst h
            rfl
          · exact ih _ m h
      · simp only [findAllSubmatchAux, if_neg hc] at hm
        exact ih _ m hm

theorem preserveLoop_eq_firstOccurrenceLoop :
    ∀ (values : List (List Char)) (i : Nat) (result : List Char),
      preserveLoop i values result = firstOccurrenceRestoreLoop i values result := by
  intro values
  induction values with
  | nil =>
    intro i result
    rfl
  | cons value rest ih =>
    intro i result
    simp only [preserveLoop, firstOccurrenceRestoreLoop]
    have hres :
        (match (findAllSubmatch result)[i]? with
          | some m => replaceFirst m.1 ('[' :: value ++ [']']) result
          | none => result)
        = (match (ExtractTemplateValues result)[i]? with
          | some tok => replaceFirst ('[' :: tok ++ [']']) ('[' :: value ++ [']']) result
          | none => result) := by
      unfold ExtractTemplateValues
      rw [List.getElem?_map]
      cases hfi : (findAllSubmatch result)[i]? with
      | none => rfl
      | some m =>
        have hmem : m ∈ findAllSubmatch result := by
          obtain ⟨hi, rfl⟩ := List.getElem?_eq_some_iff.mp hfi
          exact List.getElem_mem hi
        show replaceFirst m.1 ('[' :: value ++ [']']) result
            = replaceFirst ('[' :: m.2 ++ [']']) ('[' :: value ++ [']']) result
        rw [findAllSubmatchAux_full result none m hmem]
    by_cases hc : containsSub result ('[' :: value ++ [']']) = true
    · rw [if_pos hc, if_pos hc]
      exact ih (i + 1) result
    · rw [if_neg hc, if_neg hc, hres]
      exact ih (i + 1) _

theorem preserveLoop_fixed_of_no_matches :
    ∀ (values : List (List Char)) (i : Nat) (t : List Char),
      findAllSubmatch t = [] → preserveLoop i values t = t := by
  intro values
  induction values with
  | nil =>
    intro i t h
    rfl
  | cons value rest ih =>
    intro i t h
    simp only [preserveLoop]
    have hstep :
        (if containsSub t ('[' :: value ++ [']']) then t
         else
           match (findAllSubmatch t)[i]? with
           | some m => replaceFirst m.1 ('[' :: value ++ [']']) t
           | none => t) = t := by
      by_cases hc : containsSub t ('[' :: value ++ [']']) = true
      · rw [if_pos hc]
      · rw [if_neg hc, h]
        rfl
    rw [hstep]
    exact ih (i + 1) t h

/-- C10: every placeholder token produced by `ExtractTemplateValues` is a
non-empty string containing no closing bracket; an empty bracket pair
yields no token and likewise produces no match (hence no ordinal position
for restoration). -/
theorem c10_extracted_tokens_wellformed :
    (∀ (t v : List Char), v ∈ ExtractTemplateValues t → v ≠ [] ∧ ']' ∉ v) ∧
    ExtractTemplateValues "a[]b".toList = [] ∧
    findAllSubmatch "a[]b[x]!".toList = [("[x]".toList, "x".toList)] := by
  refine ⟨?_, by decide, by decide⟩
  intro t v hv
  obtain ⟨m, hm, rfl⟩ := List.mem_map.mp hv
  exact findAllSubmatchAux_wellformed t none (by intro acc h; cases h) m hm

/-- Witness for C10: the token of `"Hi [name]!"` is non-empty and
bracket-free. -/
theorem c10_witness : "name".toList ≠ [] ∧ ']' ∉ "name".toList :=
  c10_extracted_tokens_wellformed.1 "Hi [name]!".toList "name".toList (by decide)

/-- C2 (code bug): when the external engine returns a text with no
bracketed token at all, `PreserveTemplateValues` returns it unchanged, so
translating `"Hi [name]!"` does not always yield an output containing
`"[name]"` — contradicting both the spec sentence and the repository's own
test `TestPreserveTemplateValues/"Restore missing template"`. -/
theorem c2_code_drops_placeholder :
    PreserveTemplateValues "Hi [name]!".toList "Hola!".toList = "Hola!".toList ∧
    containsSub "Hola!".toList "[name]".toList = false :=
  ⟨by decide, by decide⟩

/-- C7 counterexample: the code replaces the *first substring occurrence*
of the token text found at the matching ordinal position, not the token at
that position; with duplicate tokens the two disagree. -/
theorem c7_counterexample_first_occurrence :
    PreserveTemplateValues "Hi [x] [b]".toList "[x] [x]".toList = "[b] [x]".toList ∧
    positionalRestore "Hi [x] [b]".toList "[x] [x]".toList = "[x] [b]".toList ∧
    ¬ PreserveTemplateValues "Hi [x] [b]".toList "[x] [x]".toList
        = positionalRestore "Hi [x] [b]".toList "[x] [x]".toList :=
  ⟨by decide, by decide, by decide⟩

/-- C7 amended: restoration replaces, for each missing original
placeholder, the first occurrence of the bracket-delimited token text
found at the same ordinal position of the current text
(`firstOccurrenceRestore`); and when the translated text has no bracketed
token at all, nothing is restored — the text is returned unchanged. -/
theorem c7_amended_restoration :
    (∀ text t : List Char, PreserveTemplateValues text t = firstOccurrenceRestore text t) ∧
    (∀ text t : List Char, findAllSubmatch t = [] → PreserveTemplateValues text t = t) := by
  constructor
  · intro text t
    unfold PreserveTemplateValues firstOccurrenceRestore
    by_cases h : (ExtractTemplateValues text).isEmpty = true
    · simp [h]
    · simp [h, preserveLoop_eq_firstOccurrenceLoop]
  · intro text t h
    unfold PreserveTemplateValues
    by_cases he : (ExtractTemplateValues text).isEmpty = true
    · simp [he]
    · simp [he, preserveLoop_fixed_of_no_matches _ _ _ h]

/-- Witness for C7's amended statement at concrete inputs. -/
theorem c7_amended_witness :
    PreserveTemplateValues "Hi [q] [r]".toList "[z] [q]".toList
      = firstOccurrenceRestore "Hi [q] [r]".toList "[z] [q]".toList ∧
    PreserveTemplateValues "A [p]!".toList "B!".toList = "B!".toList :=
  ⟨c7_amended_restoration.1 _ _,
   c7_amended_restoration.2 "A [p]!".toList "B!".toList (by decide)⟩

/-!
Structured translation.
-/

theorem translateJSON_keyShape (tr : String → Except String String) :
    ∀ (m : JObject) (t : JObject), TranslateJSON tr m = .ok t → keyShapeO t = keyShapeO m := by
  intro m
  refine TranslateJSON.induct tr
    (fun mm => ∀ t, TranslateJSON tr mm = .ok t → keyShapeO t = keyShapeO mm)
    ?_ ?_ ?_ ?_ ?_ ?_ ?_ ?_ ?_ m
  · intro t h
    simp only [TranslateJSON] at h
    cases h
    rfl
  · intro key v rest e htr t h
    simp only [TranslateJSON, htr] at h
    cases h
  · intro key v rest tv htr e hrest _ t h
    simp only [TranslateJSON, htr, hrest] at h
    cases h
  · intro key v rest tv htr r hrest ih t h
    simp only [TranslateJSON, htr, hrest] at h
    cases h
    simp [keyShapeO, keyShapeV, ih r hrest]
  · intro key mm rest e hm _ t h
    simp only [TranslateJSON, hm] at h
    cases h
  · intro key mm rest tm hm e hrest _ _ t h
    simp only [TranslateJSON, hm, hrest] at h
    cases h
  · intro key mm rest tm hm r hrest ihm ih t h
    simp only [TranslateJSON, hm, hrest] at h
    cases h
    simp [keyShapeO, keyShapeV, ihm tm hm, ih r hrest]
  · intro key x rest e hrest _ t h
    simp only [TranslateJSON, hrest] at h
    cases h
  · intro key x rest r hrest ih t h
    simp only [TranslateJSON, hrest] at h
    cases h
    simp [keyShapeO, keyShapeV, ih r hrest]

/-- C9: whenever `TranslateJSON` succeeds, the returned payload has exactly
the same keys as the input at every nesting level — no key is added,
dropped, or renamed (its key shape is preserved). -/
theorem c9_translateJSON_preserves_keys (tr : String → Except String String)
    (m t : JObject) (h : TranslateJSON tr m = .ok t) : keyShapeO t = keyShapeO m :=
  translateJSON_keyShape tr m t h

/-- Witness for C9: a successful structured translation of a nested
payload whose strings all become `"X"` keeps the key shape. -/
theorem c9_witness :
    keyShapeO (.cons "a" (.str "X") (.cons "b" (.obj (.cons "c" (.str "X") .nil)) .nil))
      = keyShapeO (.cons "a" (.str "hi") (.cons "b" (.obj (.cons "c" (.str "yo") .nil)) .nil)) :=
  c9_translateJSON_preserves_keys (fun _ => .ok "X")
    (.cons "a" (.str "hi") (.cons "b" (.obj (.cons "c" (.str "yo") .nil)) .nil))
    (.cons "a" (.str "X") (.cons "b" (.obj (.cons "c" (.str "X") .nil)) .nil))
    (by simp [TranslateJSON])

/-!
Error handling of the store operations.
-/

/-- C4 counterexample: with an entity-store failure on the batched slot-2
query, the bulk read still returns a nil error — and an empty result map,
although the same store without the failure returns the row for `"c1"`.
A persistence failure is thus not fatal for the call. -/
theorem c4_counterexample_swallowed_failure :
    GetMultipleTranslations true false c4Store ["c1"] "en" "draft" = .ok ([], c4Store) ∧
    GetMultipleTranslations false false c4Store ["c1"] "en" "draft"
      = .ok ([("c1", c4Row)],
          { c4Store with cache := [(translationKey "c1" "en" "draft", c4Row)] }) :=
  ⟨rfl, rfl⟩

/-- C4 amended: the bulk read never returns an error (batched-query
failures are swallowed, the call returns just the cache hits);
`SaveTranslation` swallows a failing slot-1 creation and still reports
success; only the slot-2 create/update failure inside `SaveTranslation`
is propagated to the caller. -/
theorem c4_amended_persistence_errors :
    (∀ (α : Type) (b1 b2 : Bool) (s : Store α) (cids : List String) (loc stg : String),
        (GetMultipleTranslations b1 b2 s cids loc stg).isOk = true) ∧
    (∀ (α : Type) (b : Bool) (s : Store α) (cid loc stg : String) (d : α) (uid : String),
        (SaveTranslation false b s cid loc stg d uid).isOk = true) ∧
    (∀ (α : Type) (b : Bool) (s : Store α) (cid loc stg : String) (d : α) (uid : String),
        SaveTranslation true b s cid loc stg d uid = .error "persistence error") := by
  refine ⟨?_, ?_, ?_⟩
  · intro α b1 b2 s cids loc stg
    unfold GetMultipleTranslations
    dsimp only
    repeat' split
    all_goals rfl
  · intro α b s cid loc stg d uid
    cases h : firstVer s.rows cid loc stg 2 <;> simp only [SaveTranslation, h] <;> rfl
  · intro α b s cid loc stg d uid
    cases h : firstVer s.rows cid loc stg 2 <;> simp only [SaveTranslation, h] <;> rfl

/-- C3 (code bug): reverting a key that has a slot-1 row but no slot-2 row
succeeds by creating slot 2 from slot 1, but returns *before* the cache
invalidation: the stale cache entry for the key is still present
afterwards. -/
theorem c3_revert_skips_cache_invalidation :
    (RevertTranslation c3Store "c1" "en" "draft").map
        (fun s => cacheGet s.cache (translationKey "c1" "en" "draft"))
      = some (some c3StaleRow) :=
  rfl

/-!
The backfill orchestrator.
-/

theorem SaveTranslation_ok {α : Type} (b : Bool) (s : Store α) (cid loc stg : String)
    (d : α) (uid : String) :
    ∃ row s1, SaveTranslation false b s cid loc stg d uid = .ok (row, s1) := by
  cases h : firstVer s.rows cid loc stg 2 <;> simp only [SaveTranslation, h] <;>
    exact ⟨_, _, rfl⟩

theorem SaveTranslation_v2fail {α : Type} (b : Bool) (s : Store α) (cid loc stg : String)
    (d : α) (uid : String) :
    SaveTranslation true b s cid loc stg d uid = .error "persistence error" := by
  cases h : firstVer s.rows cid loc stg 2 <;> simp only [SaveTranslation, h] <;> rfl

theorem isOk_exists {ε β : Type} {x : Except ε β} (h : x.isOk = true) : ∃ v, x = .ok v := by
  cases x with
  | error e => simp [Except.isOk, Except.toBool] at h
  | ok v => exact ⟨v, rfl⟩

theorem backfill_translate_fail {α : Type} (tr : String → Except String α)
    (f2 f1 : String → Bool) (cid stg uid : String) :
    ∀ (pre : List String) (s : Store α) (L : String) (post : List String) (e : String),
      (∀ l ∈ pre, (tr l).isOk = true ∧ f2 l = false) → tr L = .error e →
      BackfillTranslations tr f2 f1 s cid (pre ++ L :: post) stg uid
        = (.error ("Failed to translate to " ++ L ++ ": " ++ e),
           (backfillSaves tr f2 f1 s cid stg uid pre).2) := by
  intro pre
  induction pre with
  | nil =>
    intro s L post e hpre hL
    simp only [List.nil_append, BackfillTranslations, hL, backfillSaves]
  | cons l rest ih =>
    intro s L post e hpre hL
    obtain ⟨hok, hf2⟩ := hpre l (List.mem_cons_self l rest)
    obtain ⟨d, hd⟩ := isOk_exists hok
    obtain ⟨row, s1, hp⟩ := SaveTranslation_ok (f1 l) s cid l stg d uid
    simp only [List.cons_append, List.append_eq, BackfillTranslations, backfillSaves, hd, hf2,
      hp]
    rw [ih s1 L post e (fun x hx => hpre x (List.mem_cons_of_mem l hx)) hL]

theorem backfill_save_fail {α : Type} (tr : String → Except String α)
    (f2 f1 : String → Bool) (cid stg uid : String) :
    ∀ (pre : List String) (s : Store α) (L : String) (post : List String) (d : α),
      (∀ l ∈ pre, (tr l).isOk = true ∧ f2 l = false) → tr L = .ok d → f2 L = true →
      BackfillTranslations tr f2 f1 s cid (pre ++ L :: post) stg uid
        = (.error ("Failed to save translation for " ++ L),
           (backfillSaves tr f2 f1 s cid stg uid pre).2) := by
  intro pre
  induction pre with
  | nil =>
    intro s L post d hpre hL hf2
    have hv := SaveTranslation_v2fail (f1 L) s cid L stg d uid
    simp only [List.nil_append, BackfillTranslations, hL, hf2, hv, backfillSaves]
  | cons l rest ih =>
    intro s L post d hpre hL hf2
    obtain ⟨hok, hfl⟩ := hpre l (List.mem_cons_self l rest)
    obtain ⟨dl, hd⟩ := isOk_exists hok
    obtain ⟨row, s1, hp⟩ := SaveTranslation_ok (f1 l) s cid l stg dl uid
    simp only [List.cons_append, List.append_eq, BackfillTranslations, backfillSaves, hd, hfl,
      hp]
    rw [ih s1 L post d (fun x hx => hpre x (List.mem_cons_of_mem l hx)) hL hf2]

theorem backfill_success {α : Type} (tr : String → Except String α)
    (f2 f1 : String → Bool) (cid stg uid : String) :
    ∀ (locales : List String) (s : Store α),
      (∀ l ∈ locales, (tr l).isOk = true ∧ f2 l = false) →
      BackfillTranslations tr f2 f1 s cid locales stg uid
        = (.ok (backfillSaves tr f2 f1 s cid stg uid locales).1,
           (backfillSaves tr f2 f1 s cid stg uid locales).2) := by
  intro locales
  induction locales with
  | nil =>
    intro s hpre
    simp only [BackfillTranslations, backfillSaves]
  | cons l rest ih =>
    intro s hpre
    obtain ⟨hok, hf2⟩ := hpre l (List.mem_cons_self l rest)
    obtain ⟨d, hd⟩ := isOk_exists hok
    obtain ⟨row, s1, hp⟩ := SaveTranslation_ok (f1 l) s cid l stg d uid
    simp only [BackfillTranslations, backfillSaves, hd, hf2, hp]
    rw [ih s1 (fun x hx => hpre x (List.mem_cons_of_mem l hx))]

/-- C5: the backfill loop walks the target locales in the given order.
If translation fails at locale `L`, or the save of `L`'s result fails,
the call reports an error naming `L` and the final store state is exactly
the state produced by translating and saving the locales before `L`, in
order (they stay persisted; nothing after `L` is touched — the result does
not depend on the locales after `L`).  On full success the call returns
the saved rows in target-locale order together with the state of all the
saves applied in order. -/
theorem c5_backfill_order_and_abort {α : Type} (tr : String → Except String α)
    (f2 f1 : String → Bool) (cid stg uid : String) :
    (∀ (pre : List String) (s : Store α) (L : String) (post : List String) (e : String),
        (∀ l ∈ pre, (tr l).isOk = true ∧ f2 l = false) → tr L = .error e →
        BackfillTranslations tr f2 f1 s cid (pre ++ L :: post) stg uid
          = (.error ("Failed to translate to " ++ L ++ ": " ++ e),
             (backfillSaves tr f2 f1 s cid stg uid pre).2)) ∧
    (∀ (pre : List String) (s : Store α) (L : String) (post : List String) (d : α),
        (∀ l ∈ pre, (tr l).isOk = true ∧ f2 l = false) → tr L = .ok d → f2 L = true →
        BackfillTranslations tr f2 f1 s cid (pre ++ L :: post) stg uid
          = (.error ("Failed to save translation for " ++ L),
             (backfillSaves tr f2 f1 s cid stg uid pre).2)) ∧
    (∀ (locales : List String) (s : Store α),
        (∀ l ∈ locales, (tr l).isOk = true ∧ f2 l = false) →
        BackfillTranslations tr f2 f1 s cid locales stg uid
          = (.ok (backfillSaves tr f2 f1 s cid stg uid locales).1,
             (backfillSaves tr f2 f1 s cid stg uid locales).2)) :=
  ⟨backfill_translate_fail tr f2 f1 cid stg uid,
   backfill_save_fail tr f2 f1 cid stg uid,
   backfill_success tr f2 f1 cid stg uid⟩

/-- Witness for C5: backfilling `[id, es, fr]` where translation to `es`
fails persists `id`, reports `es`, and never touches `fr`. -/
theorem c5_witness :
    BackfillTranslations c5tr noFail noFail emptyStore "c" (["id"] ++ "es" :: ["fr"]) "draft" "u"
      = (.error ("Failed to translate to " ++ "es" ++ ": " ++ "quota"),
         (backfillSaves c5tr noFail noFail emptyStore "c" "draft" "u" ["id"]).2) :=
  (c5_backfill_order_and_abort c5tr noFail noFail "c" "draft" "u").1
    ["id"] emptyStore "es" ["fr"] "quota" (by decide) rfl

/-!
Cache and row-list lemmas for the read-after-write claims.
-/

theorem cacheGet_delete_self {α : Type} (c : List (String × TranslationVersion α)) (k : String) :
    cacheGet (cacheDelete c k) k = none := by
  unfold cacheGet cacheDelete
  rw [List.find?_filter, List.find?_eq_none.mpr]
  · rfl
  · intro x hx
    simp

theorem cacheGet_delete_of_none {α : Type} {c : List (String × TranslationVersion α)}
    {k : String} (k2 : String) (h : cacheGet c k = none) :
    cacheGet (cacheDelete c k2) k = none := by
  unfold cacheGet at h
  unfold cacheGet cacheDelete
  rw [List.find?_filter, List.find?_eq_none.mpr]
  · rfl
  · intro x hx
    have hx2 := List.find?_eq_none.mp (Option.map_eq_none.mp h) x hx
    simp at hx2 ⊢
    intro h1
    exact hx2

theorem find?_filter_of_imp {β : Type} (l : List β) (p q : β → Bool)
    (h : ∀ x, p x = true → q x = true) : (l.filter q).find? p = l.find? p := by
  rw [List.find?_filter]
  congr 1
  funext a
  cases hp : p a with
  | true => simp [hp, h a hp]
  | false => simp [hp]

theorem find?_updateRow {α : Type} {p q : TranslationVersion α → Bool} :
    ∀ {rows : List (TranslationVersion α)} {r0 upd : TranslationVersion α},
      rows.find? q = some r0 → (rows.map TranslationVersion.ID).Nodup →
      upd.ID = r0.ID → (∀ x, p x = true → q x = true) → p upd = true →
      (updateRow rows upd).find? p = some upd := by
  intro rows
  induction rows with
  | nil =>
    intro r0 upd hfind
    simp at hfind
  | cons x xs ih =>
    intro r0 upd hfind hnodup hid himp hpupd
    cases hqx : q x with
    | true =>
      have hx : x = r0 := by
        simp only [List.find?, hqx] at hfind
        exact Option.some.inj hfind
      have hhead : x.ID = upd.ID := by rw [hid, hx]
      simp only [updateRow, List.map, List.find?, if_pos hhead, hpupd]
    | false =>
      have hfind2 : xs.find? q = some r0 := by
        simp only [List.find?, hqx] at hfind
        exact hfind
      have hmem : r0 ∈ xs := List.mem_of_find?_eq_some hfind2
      have hxid : ¬ x.ID = upd.ID := by
        rw [hid]
        intro hcontra
        have := (List.nodup_cons.mp hnodup).1
        exact this (hcontra ▸ List.mem_map_of_mem TranslationVersion.ID hmem)
      have hpx : p x = false := by
        cases hpx : p x with
        | true => rw [himp x hpx] at hqx; cases hqx
        | false => rfl
      simp only [updateRow, List.map, List.find?, if_neg hxid, hpx]
      exact ih hfind2 (List.nodup_cons.mp hnodup).2 hid himp hpupd

theorem read_after_write {α : Type} (c : List (String × TranslationVersion α))
    (cid loc stg : String) (rows2 : List (TranslationVersion α)) (n : Nat)
    (A : TranslationVersion α)
    (hfind : rows2.find? (fun r => keyMatch cid loc stg r && r.IsActive && r.Version == 2)
      = some A) :
    (GetTranslation
        ⟨cleanupOldVersions rows2, n,
         cacheDelete (cacheDelete c (translationKey cid loc stg)) (componentKey cid)⟩
        cid loc stg).1 = some A := by
  have hc : cacheGet
      (cacheDelete (cacheDelete c (translationKey cid loc stg)) (componentKey cid))
      (translationKey cid loc stg) = none :=
    cacheGet_delete_of_none _ (cacheGet_delete_self c _)
  have hfa : firstActiveVer (cleanupOldVersions rows2) cid loc stg 2 = some A := by
    unfold firstActiveVer cleanupOldVersions
    rw [find?_filter_of_imp]
    · exact hfind
    · intro x hx
      simp only [Bool.and_eq_true, beq_iff_eq] at hx
      simp [hx.2]
  simp only [GetTranslation, hc, hfa]

/-- C8: saving payload `P` and immediately reading the same key returns
exactly the row the save produced, whose payload is `P`.  The hypotheses
are store invariants maintained by the service: every row of the key is
active (the service never writes inactive rows) and primary keys are
unique. -/
theorem c8_save_then_read {α : Type} (s : Store α) (cid loc stg : String) (P : α)
    (uid : String)
    (hact : ∀ r ∈ s.rows, keyMatch cid loc stg r = true → r.IsActive = true)
    (hids : (s.rows.map TranslationVersion.ID).Nodup) :
    ∀ row s1, SaveTranslation false false s cid loc stg P uid = .ok (row, s1) →
      (GetTranslation s1 cid loc stg).1 = some row ∧ row.Data = P := by
  intro row s1 hsave
  have himp : ∀ x : TranslationVersion α,
      (keyMatch cid loc stg x && x.IsActive && x.Version == 2) = true →
      (keyMatch cid loc stg x && x.Version == 2) = true := by
    intro x hx
    simp only [Bool.and_eq_true] at hx ⊢
    exact ⟨hx.1.1, hx.2⟩
  cases hv2 : firstVer s.rows cid loc stg 2 with
  | none =>
    have hv2f : List.find? (fun r => keyMatch cid loc stg r && r.Version == 2) s.rows
        = none := hv2
    have hnone : List.find?
        (fun r => keyMatch cid loc stg r && r.IsActive && r.Version == 2) s.rows = none := by
      rw [List.find?_eq_none]
      intro x hx hcontra
      exact List.find?_eq_none.mp hv2f x hx (himp x hcontra)
    simp [SaveTranslation, hv2] at hsave
    cases hv1 : firstVer
        (s.rows ++ [⟨s.nextId, cid, loc, stg, 2, P, true, uid, uid⟩]) cid loc stg 1 with
    | none =>
      simp only [hv1] at hsave
      obtain ⟨rfl, rfl⟩ := hsave
      refine ⟨?_, rfl⟩
      refine read_after_write s.cache cid loc stg _ _ _ ?_
      rw [List.find?_append, hnone]
      simp [List.find?, keyMatch, Option.or]
    | some w =>
      simp only [hv1] at hsave
      obtain ⟨rfl, rfl⟩ := hsave
      refine ⟨?_, rfl⟩
      refine read_after_write s.cache cid loc stg _ _ _ ?_
      rw [List.find?_append, hnone]
      simp [List.find?, keyMatch, Option.or]
  | some r0 =>
    have hv2f : List.find? (fun r => keyMatch cid loc stg r && r.Version == 2) s.rows
        = some r0 := hv2
    have hq := List.find?_some hv2f
    have hmem : r0 ∈ s.rows := List.mem_of_find?_eq_some hv2f
    have hkm : keyMatch cid loc stg r0 = true := by
      simp only [Bool.and_eq_true] at hq
      exact hq.1
    have hver : (r0.Version == 2) = true := by
      simp only [Bool.and_eq_true] at hq
      exact hq.2
    have hactive : r0.IsActive = true := hact r0 hmem hkm
    have hpupd : (keyMatch cid loc stg ({r0 with Data := P, UpdatedBy := uid}) &&
        ({r0 with Data := P, UpdatedBy := uid} : TranslationVersion α).IsActive &&
        ({r0 with Data := P, UpdatedBy := uid} : TranslationVersion α).Version == 2)
        = true := by
      have h1 : keyMatch cid loc stg ({r0 with Data := P, UpdatedBy := uid})
          = keyMatch cid loc stg r0 := rfl
      simp only [h1, Bool.and_eq_true]
      exact ⟨⟨hkm, hactive⟩, hver⟩
    have hupd : (updateRow s.rows ({r0 with Data := P, UpdatedBy := uid})).find?
        (fun r => keyMatch cid loc stg r && r.IsActive && r.Version == 2)
        = some ({r0 with Data := P, UpdatedBy := uid}) :=
      find?_updateRow hv2f hids rfl himp hpupd
    simp [SaveTranslation, hv2] at hsave
    cases hv1 : firstVer (updateRow s.rows ({r0 with Data := P, UpdatedBy := uid}))
        cid loc stg 1 with
    | none =>
      simp only [hv1] at hsave
      obtain ⟨rfl, rfl⟩ := hsave
      refine ⟨?_, rfl⟩
      refine read_after_write s.cache cid loc stg _ _ _ ?_
      rw [List.find?_append, hupd]
      rfl
    | some w =>
      simp only [hv1] at hsave
      obtain ⟨rfl, rfl⟩ := hsave
      exact ⟨read_after_write s.cache cid loc stg _ _ _ hupd, rfl⟩

/-- Witness for C8: a save on the empty store followed by a read returns
the saved row with its payload. -/
theorem c8_witness :
    (GetTranslation
        ⟨[⟨0, "c", "en", "draft", 2, 1, true, "u", "u"⟩,
          ⟨1, "c", "en", "draft", 1, 1, true, "", ""⟩], 2, []⟩ "c" "en" "draft").1
      = some ⟨0, "c", "en", "draft", 2, 1, true, "u", "u"⟩ ∧
    (⟨0, "c", "en", "draft", 2, 1, true, "u", "u"⟩ : TranslationVersion Nat).Data = 1 :=
  c8_save_then_read emptyStore "c" "en" "draft" 1 "u" (by decide) (by decide)
    ⟨0, "c", "en", "draft", 2, 1, true, "u", "u"⟩
    ⟨[⟨0, "c", "en", "draft", 2, 1, true, "u", "u"⟩,
      ⟨1, "c", "en", "draft", 1, 1, true, "", ""⟩], 2, []⟩ rfl

/-!
Fresh-key save / save / revert / read (claim C1).
-/

theorem find?_eq_none_of_fresh {α : Type} {rows : List (TranslationVersion α)}
    {cid loc stg : String} (h : ∀ r ∈ rows, keyMatch cid loc stg r = false)
    (p : TranslationVersion α → Bool)
    (himp : ∀ x, p x = true → keyMatch cid loc stg x = true) :
    rows.find? p = none := by
  rw [List.find?_eq_none]
  intro x hx hpx
  have h1 := himp x hpx
  rw [h x hx] at h1
  cases h1

theorem mem_of_mem_cleanup {α : Type} {rows : List (TranslationVersion α)}
    {r : TranslationVersion α} (h : r ∈ cleanupOldVersions rows) : r ∈ rows :=
  (List.mem_filter.mp h).1

theorem updateRow_append_fresh {α : Type} (front : List (TranslationVersion α))
    (back : List (TranslationVersion α)) (upd : TranslationVersion α)
    (h : ∀ r ∈ front, ¬ r.ID = upd.ID) :
    updateRow (front ++ back) upd = front ++ updateRow back upd := by
  unfold updateRow
  rw [List.map_append]
  congr 1
  rw [List.map_congr_left]
  · exact List.map_id front
  · intro x hx
    exact if_neg (h x hx)

/-- C1: on a key with no prior rows, saving `P1`, saving `P2`, reverting
and then reading the key yields `P1` — slot 1 is created only by the first
save (holding `P1`) and never overwritten by the second, and revert copies
it back into slot 2.  The id-bound hypothesis is the freshness of the
primary-key supply. -/
theorem c1_two_saves_then_revert_restores_first {α : Type} (s : Store α)
    (cid loc stg : String) (P1 P2 : α) (u1 u2 : String)
    (hfresh : ∀ r ∈ s.rows, keyMatch cid loc stg r = false)
    (hid : ∀ r ∈ s.rows, r.ID < s.nextId) :
    ∀ r1 s1 r2 s2 s3,
      SaveTranslation false false s cid loc stg P1 u1 = .ok (r1, s1) →
      SaveTranslation false false s1 cid loc stg P2 u2 = .ok (r2, s2) →
      RevertTranslation s2 cid loc stg = some s3 →
      ((GetTranslation s3 cid loc stg).1).map TranslationVersion.Data = some P1 := by
  intro r1 s1 r2 s2 s3 hsave1 hsave2 hrev
  have hv2a : firstVer s.rows cid loc stg 2 = none :=
    find?_eq_none_of_fresh hfresh _ (by
      intro x hx
      simp only [Bool.and_eq_true] at hx
      exact hx.1)
  simp [SaveTranslation, hv2a] at hsave1
  have hv1a : firstVer
      (s.rows ++ [⟨s.nextId, cid, loc, stg, 2, P1, true, u1, u1⟩]) cid loc stg 1 = none := by
    unfold firstVer
    rw [List.find?_append, find?_eq_none_of_fresh hfresh _ (by
      intro x hx
      simp only [Bool.and_eq_true] at hx
      exact hx.1)]
    simp [List.find?, keyMatch]
  simp only [hv1a] at hsave1
  obtain ⟨rfl, rfl⟩ := hsave1
  have hclean1 : cleanupOldVersions
      (s.rows ++ [(⟨s.nextId, cid, loc, stg, 2, P1, true, u1, u1⟩ : TranslationVersion α),
        ⟨s.nextId + 1, cid, loc, stg, 1, P1, true, "", ""⟩])
      = cleanupOldVersions s.rows ++
        [⟨s.nextId, cid, loc, stg, 2, P1, true, u1, u1⟩,
         ⟨s.nextId + 1, cid, loc, stg, 1, P1, true, "", ""⟩] := by
    unfold cleanupOldVersions
    rw [List.filter_append]
    simp [List.filter]
  rw [hclean1] at hsave2
  have hfreshc : ∀ r ∈ cleanupOldVersions s.rows, keyMatch cid loc stg r = false :=
    fun r hr => hfresh r (mem_of_mem_cleanup hr)
  have hv2b : firstVer
      (cleanupOldVersions s.rows ++
        [(⟨s.nextId, cid, loc, stg, 2, P1, true, u1, u1⟩ : TranslationVersion α),
         ⟨s.nextId + 1, cid, loc, stg, 1, P1, true, "", ""⟩]) cid loc stg 2
      = some ⟨s.nextId, cid, loc, stg, 2, P1, true, u1, u1⟩ := by
    unfold firstVer
    rw [List.find?_append, find?_eq_none_of_fresh hfreshc _ (by
      intro x hx
      simp only [Bool.and_eq_true] at hx
      exact hx.1)]
    simp [List.find?, keyMatch, Option.or]
  simp [SaveTranslation, hv2b] at hsave2
  have hupd2 : updateRow
      (cleanupOldVersions s.rows ++
        [(⟨s.nextId, cid, loc, stg, 2, P1, true, u1, u1⟩ : TranslationVersion α),
         ⟨s.nextId + 1, cid, loc, stg, 1, P1, true, "", ""⟩])
      ⟨s.nextId, cid, loc, stg, 2, P2, true, u1, u2⟩
      = cleanupOldVersions s.rows ++
        [⟨s.nextId, cid, loc, stg, 2, P2, true, u1, u2⟩,
         ⟨s.nextId + 1, cid, loc, stg, 1, P1, true, "", ""⟩] := by
    rw [updateRow_append_fresh]
    · unfold updateRow
      simp [List.map]
    · intro r hr
      have := hid r (mem_of_mem_cleanup hr)
      show ¬ r.ID = s.nextId
      omega
  rw [hupd2] at hsave2
  have hv1b : firstVer
      (cleanupOldVersions s.rows ++
        [(⟨s.nextId, cid, loc, stg, 2, P2, true, u1, u2⟩ : TranslationVersion α),
         ⟨s.nextId + 1, cid, loc, stg, 1, P1, true, "", ""⟩]) cid loc stg 1
      = some ⟨s.nextId + 1, cid, loc, stg, 1, P1, true, "", ""⟩ := by
    unfold firstVer
    rw [List.find?_append, find?_eq_none_of_fresh hfreshc _ (by
      intro x hx
      simp only [Bool.and_eq_true] at hx
      exact hx.1)]
    simp [List.find?, keyMatch, Option.or]
  simp only [hv1b] at hsave2
  have hclean2 : cleanupOldVersions
      (cleanupOldVersions s.rows ++
        [(⟨s.nextId, cid, loc, stg, 2, P2, true, u1, u2⟩ : TranslationVersion α),
         ⟨s.nextId + 1, cid, loc, stg, 1, P1, true, "", ""⟩])
      = cleanupOldVersions s.rows ++
        [⟨s.nextId, cid, loc, stg, 2, P2, true, u1, u2⟩,
         ⟨s.nextId + 1, cid, loc, stg, 1, P1, true, "", ""⟩] := by
    unfold cleanupOldVersions
    rw [List.filter_append, List.filter_filter]
    simp [List.filter]
  rw [hclean2] at hsave2
  obtain ⟨rfl, rfl⟩ := hsave2
  have hv1c : firstVer
      (cleanupOldVersions s.rows ++
        [(⟨s.nextId, cid, loc, stg, 2, P2, true, u1, u2⟩ : TranslationVersion α),
         ⟨s.nextId + 1, cid, loc, stg, 1, P1, true, "", ""⟩]) cid loc stg 1
      = some ⟨s.nextId + 1, cid, loc, stg, 1, P1, true, "", ""⟩ := hv1b
  have hv2c : firstVer
      (cleanupOldVersions s.rows ++
        [(⟨s.nextId, cid, loc, stg, 2, P2, true, u1, u2⟩ : TranslationVersion α),
         ⟨s.nextId + 1, cid, loc, stg, 1, P1, true, "", ""⟩]) cid loc stg 2
      = some ⟨s.nextId, cid, loc, stg, 2, P2, true, u1, u2⟩ := by
    unfold firstVer
    rw [List.find?_append, find?_eq_none_of_fresh hfreshc _ (by
      intro x hx
      simp only [Bool.and_eq_true] at hx
      exact hx.1)]
    simp [List.find?, keyMatch, Option.or]
  simp [RevertTranslation, hv1c, hv2c] at hrev
  have hupd3 : updateRow
      (cleanupOldVersions s.rows ++
        [(⟨s.nextId, cid, loc, stg, 2, P2, true, u1, u2⟩ : TranslationVersion α),
         ⟨s.nextId + 1, cid, loc, stg, 1, P1, true, "", ""⟩])
      ⟨s.nextId, cid, loc, stg, 2, P1, true, u1, u2⟩
      = cleanupOldVersions s.rows ++
        [⟨s.nextId, cid, loc, stg, 2, P1, true, u1, u2⟩,
         ⟨s.nextId + 1, cid, loc, stg, 1, P1, true, "", ""⟩] := by
    rw [updateRow_append_fresh]
    · unfold updateRow
      simp [List.map]
    · intro r hr
      have := hid r (mem_of_mem_cleanup hr)
      show ¬ r.ID = s.nextId
      omega
  rw [hupd3] at hrev
  subst hrev
  have hcache : cacheGet
      ((⟨cleanupOldVersions s.rows ++
          [(⟨s.nextId, cid, loc, stg, 2, P1, true, u1, u2⟩ : TranslationVersion α),
           ⟨s.nextId + 1, cid, loc, stg, 1, P1, true, "", ""⟩],
         s.nextId + 1 + 1,
         cacheDelete (cacheDelete (cacheDelete (cacheDelete (cacheDelete s.cache
           (translationKey cid loc stg)) (componentKey cid)) (translationKey cid loc stg))
           (componentKey cid)) (translationKey cid loc stg)⟩ : Store α)).cache
      (translationKey cid loc stg) = none :=
    cacheGet_delete_self _ _
  have hfa : firstActiveVer
      (cleanupOldVersions s.rows ++
        [(⟨s.nextId, cid, loc, stg, 2, P1, true, u1, u2⟩ : TranslationVersion α),
         ⟨s.nextId + 1, cid, loc, stg, 1, P1, true, "", ""⟩]) cid loc stg 2
      = some ⟨s.nextId, cid, loc, stg, 2, P1, true, u1, u2⟩ := by
    unfold firstActiveVer
    rw [List.find?_append, find?_eq_none_of_fresh hfreshc _ (by
      intro x hx
      simp only [Bool.and_eq_true] at hx
      exact hx.1.1)]
    simp [List.find?, keyMatch, Option.or]
  simp [GetTranslation, hcache, hfa]

/-- Witness for C1 on the empty store: save 11, save 22, revert, read 11. -/
theorem c1_witness :
    ((GetTranslation
        ⟨[⟨0, "c", "en", "draft", 2, 11, true, "u1", "u2"⟩,
          ⟨1, "c", "en", "draft", 1, 11, true, "", ""⟩], 2, []⟩
        "c" "en" "draft").1).map TranslationVersion.Data = some 11 :=
  c1_two_saves_then_revert_restores_first emptyStore "c" "en" "draft" 11 22 "u1" "u2"
    (by decide) (by decide)
    ⟨0, "c", "en", "draft", 2, 11, true, "u1", "u1"⟩
    ⟨[⟨0, "c", "en", "draft", 2, 11, true, "u1", "u1"⟩,
      ⟨1, "c", "en", "draft", 1, 11, true, "", ""⟩], 2, []⟩
    ⟨0, "c", "en", "draft", 2, 22, true, "u1", "u2"⟩
    ⟨[⟨0, "c", "en", "draft", 2, 22, true, "u1", "u2"⟩,
      ⟨1, "c", "en", "draft", 1, 11, true, "", ""⟩], 2, []⟩
    ⟨[⟨0, "c", "en", "draft", 2, 11, true, "u1", "u2"⟩,
      ⟨1, "c", "en", "draft", 1, 11, true, "", ""⟩], 2, []⟩
    rfl rfl rfl

/-!
Key-set lemmas for the bulk read (claim C6).
-/

theorem mapUpsert_keys {α : Type} (m : List (String × TranslationVersion α)) (k : String)
    (v : TranslationVersion α) (x : String) :
    x ∈ (mapUpsert m k v).map Prod.fst ↔ x ∈ m.map Prod.fst ∨ x = k := by
  unfold mapUpsert
  cases ha : m.any (fun e => e.1 == k) with
  | true =>
    rw [if_pos rfl]
    have hmap : (m.map (fun e => if e.1 == k then (k, v) else e)).map Prod.fst
        = m.map Prod.fst := by
      rw [List.map_map]
      apply List.map_congr_left
      intro e he
      by_cases hek : (e.1 == k) = true
      · simp only [Function.comp_apply, if_pos hek]
        exact (beq_iff_eq.mp hek).symm
      · simp only [Function.comp_apply, if_neg hek]
    rw [hmap]
    obtain ⟨e, he, hek⟩ := List.any_eq_true.mp ha
    constructor
    · exact Or.inl
    · rintro (h | rfl)
      · exact h
      · exact beq_iff_eq.mp hek ▸ List.mem_map_of_mem Prod.fst he
  | false =>
    rw [if_neg Bool.false_ne_true]
    simp [List.map_append]

theorem cacheProbe_spec {α : Type} (s : Store α) (loc stg : String) :
    ∀ (cids : List String) (acc : List (String × TranslationVersion α) × List String),
      (∀ k, k ∈ (cacheProbe s loc stg acc cids).1.map Prod.fst ↔
          k ∈ acc.1.map Prod.fst ∨ (k ∈ cids ∧
            (cacheGet s.cache (translationKey k loc stg)).isSome = true)) ∧
      (∀ k, k ∈ (cacheProbe s loc stg acc cids).2 ↔
          k ∈ acc.2 ∨ (k ∈ cids ∧
            (cacheGet s.cache (translationKey k loc stg)).isSome = false)) := by
  intro cids
  induction cids with
  | nil =>
    intro acc
    constructor <;> intro k <;> simp [cacheProbe]
  | cons cid rest ih =>
    intro acc
    cases hc : cacheGet s.cache (translationKey cid loc stg) with
    | some r =>
      have hcid : (cacheGet s.cache (translationKey cid loc stg)).isSome = true := by
        rw [hc]
        rfl
      constructor <;> intro k
      · rw [show cacheProbe s loc stg acc (cid :: rest)
            = cacheProbe s loc stg (mapUpsert acc.1 cid r, acc.2) rest from by
              rw [cacheProbe, hc]]
        rw [(ih _).1 k]
        simp only [mapUpsert_keys, List.mem_cons]
        constructor
        · rintro ((h | rfl) | ⟨hr, hh⟩)
          · exact Or.inl h
          · exact Or.inr ⟨Or.inl rfl, hcid⟩
          · exact Or.inr ⟨Or.inr hr, hh⟩
        · rintro (h | ⟨(rfl | hr), hh⟩)
          · exact Or.inl (Or.inl h)
          · exact Or.inl (Or.inr rfl)
          · exact Or.inr ⟨hr, hh⟩
      · rw [show cacheProbe s loc stg acc (cid :: rest)
            = cacheProbe s loc stg (mapUpsert acc.1 cid r, acc.2) rest from by
              rw [cacheProbe, hc]]
        rw [(ih _).2 k]
        simp only [List.mem_cons]
        constructor
        · rintro (h | ⟨hr, hh⟩)
          · exact Or.inl h
          · exact Or.inr ⟨Or.inr hr, hh⟩
        · rintro (h | ⟨(rfl | hr), hh⟩)
          · exact Or.inl h
          · rw [hcid] at hh
            cases hh
          · exact Or.inr ⟨hr, hh⟩
    | none =>
      have hncid : (cacheGet s.cache (translationKey cid loc stg)).isSome = false := by
        rw [hc]
        rfl
      constructor <;> intro k
      · rw [show cacheProbe s loc stg acc (cid :: rest)
            = cacheProbe s loc stg (acc.1, acc.2 ++ [cid]) rest from by
              rw [cacheProbe, hc]]
        rw [(ih _).1 k]
        simp only [List.mem_cons]
        constructor
        · rintro (h | ⟨hr, hh⟩)
          · exact Or.inl h
          · exact Or.inr ⟨Or.inr hr, hh⟩
        · rintro (h | ⟨(rfl | hr), hh⟩)
          · exact Or.inl h
          · rw [hncid] at hh
            cases hh
          · exact Or.inr ⟨hr, hh⟩
      · rw [show cacheProbe s loc stg acc (cid :: rest)
            = cacheProbe s loc stg (acc.1, acc.2 ++ [cid]) rest from by
              rw [cacheProbe, hc]]
        rw [(ih _).2 k]
        simp only [List.mem_append, List.mem_cons]
        constructor
        · rintro ((h | rfl | hnil) | ⟨hr, hh⟩)
          · exact Or.inl h
          · exact Or.inr ⟨Or.inl rfl, hncid⟩
          · simp at hnil
          · exact Or.inr ⟨Or.inr hr, hh⟩
        · rintro (h | ⟨(rfl | hr), hh⟩)
          · exact Or.inl (Or.inl h)
          · exact Or.inl (Or.inr (by simp))
          · exact Or.inr ⟨hr, hh⟩

theorem insertAll_keys {α : Type} (loc stg : String) :
    ∀ (ts : List (TranslationVersion α))
      (acc : List (String × TranslationVersion α) × Store α) (k : String),
      k ∈ (insertAll loc stg acc ts).1.map Prod.fst ↔
        k ∈ acc.1.map Prod.fst ∨ k ∈ ts.map (fun t => t.ComponentID) := by
  intro ts
  induction ts with
  | nil =>
    intro acc k
    simp [insertAll]
  | cons t rest ih =>
    intro acc k
    rw [insertAll, ih _ k]
    simp only [mapUpsert_keys, List.map_cons, List.mem_cons]
    constructor
    · rintro ((h | rfl) | h)
      · exact Or.inl h
      · exact Or.inr (Or.inl rfl)
      · exact Or.inr (Or.inr h)
    · rintro (h | (rfl | h))
      · exact Or.inl (Or.inl h)
      · exact Or.inl (Or.inr rfl)
      · exact Or.inr h

theorem contains_iff {l : List String} {a : String} : l.contains a = true ↔ a ∈ l := by
  simp [List.contains_iff_exists_mem_beq]

/-- C6: with no injected persistence failure, the key set of the bulk-read
result map is exactly the requested components that have a cached entry or
an active slot-2 or slot-1 row for the locale and stage; components with
no data are simply absent (and the call never fails). -/
theorem c6_bulk_read_key_set {α : Type} (s : Store α) (cids : List String) (loc stg : String) :
    ∀ res s1, GetMultipleTranslations false false s cids loc stg = .ok (res, s1) →
      ∀ k, k ∈ res.map Prod.fst ↔
        (k ∈ cids ∧ ((cacheGet s.cache (translationKey k loc stg)).isSome = true ∨
          ∃ r ∈ s.rows, r.ComponentID = k ∧ r.Locale = loc ∧ r.Stage = stg ∧
            r.IsActive = true ∧ (r.Version = 2 ∨ r.Version = 1))) := by
  intro res s1 hget k
  have hp1 := (cacheProbe_spec s loc stg cids ([], [])).1
  have hp2 := (cacheProbe_spec s loc stg cids ([], [])).2
  simp only [List.map_nil, List.not_mem_nil, false_or] at hp1 hp2
  unfold GetMultipleTranslations at hget
  dsimp only at hget
  simp only [Bool.false_eq_true, if_false] at hget
  split at hget
  case isTrue hemp =>
    simp only [Except.ok.injEq, Prod.mk.injEq] at hget
    obtain ⟨rfl, rfl⟩ := hget
    have hmissnil : (cacheProbe s loc stg ([], []) cids).2 = [] := List.isEmpty_iff.mp hemp
    rw [hp1 k]
    constructor
    · rintro ⟨hk, hh⟩
      exact ⟨hk, Or.inl hh⟩
    · rintro ⟨hk, hh | hrow⟩
      · exact ⟨hk, hh⟩
      · refine ⟨hk, ?_⟩
        cases hhit : (cacheGet s.cache (translationKey k loc stg)).isSome with
        | false =>
          exfalso
          have hkm : k ∈ (cacheProbe s loc stg ([], []) cids).2 := (hp2 k).mpr ⟨hk, hhit⟩
          rw [hmissnil] at hkm
          simp at hkm
        | true => rfl
  case isFalse hemp =>
    split at hget
    case isTrue hsm =>
      simp only [Except.ok.injEq] at hget
      have hres := congrArg Prod.fst hget
      subst hres
      rw [insertAll_keys, hp1 k]
      have hall : ∀ c ∈ (cacheProbe s loc stg ([], []) cids).2,
          (List.map (fun t => t.ComponentID)
            (List.filter (fun r =>
              (cacheProbe s loc stg ([], []) cids).2.contains r.ComponentID &&
                r.Locale == loc && r.Stage == stg && r.IsActive && r.Version == 2)
              s.rows)).contains c = true := by
        intro c hc
        by_contra hnc
        have hcf : (List.map (fun t => t.ComponentID)
            (List.filter (fun r =>
              (cacheProbe s loc stg ([], []) cids).2.contains r.ComponentID &&
                r.Locale == loc && r.Stage == stg && r.IsActive && r.Version == 2)
              s.rows)).contains c = false := by
          revert hnc
          cases (List.map (fun t => t.ComponentID)
            (List.filter (fun r =>
              (cacheProbe s loc stg ([], []) cids).2.contains r.ComponentID &&
                r.Locale == loc && r.Stage == stg && r.IsActive && r.Version == 2)
              s.rows)).contains c <;> simp
        have hcm : c ∈ (cacheProbe s loc stg ([], []) cids).2.filter
            (fun cid => !((List.filter (fun r =>
              (cacheProbe s loc stg ([], []) cids).2.contains r.ComponentID &&
                r.Locale == loc && r.Stage == stg && r.IsActive && r.Version == 2)
              s.rows).map (fun t => t.ComponentID)).contains cid) :=
          List.mem_filter.mpr ⟨hc, by rw [hcf]; rfl⟩
        rw [List.isEmpty_iff.mp hsm] at hcm
        simp at hcm
      constructor
      · rintro (⟨hk, hh⟩ | hT)
        · exact ⟨hk, Or.inl hh⟩
        · obtain ⟨r, hr, rfl⟩ := List.mem_map.mp hT
          obtain ⟨hrmem, hpred⟩ := List.mem_filter.mp hr
          simp only [Bool.and_eq_true, beq_iff_eq, contains_iff] at hpred
          obtain ⟨⟨⟨⟨hcon, hloc2⟩, hstg2⟩, hact2⟩, hver2⟩ := hpred
          have hkcids : r.ComponentID ∈ cids := ((hp2 _).mp hcon).1
          refine ⟨hkcids, Or.inr ⟨r, hrmem, rfl, hloc2, hstg2, hact2, Or.inl ?_⟩⟩
          exact hver2
      · rintro ⟨hk, hh | ⟨r, hrmem, hrk, hloc2, hstg2, hact2, hver2⟩⟩
        · exact Or.inl ⟨hk, hh⟩
        · cases hhit : (cacheGet s.cache (translationKey k loc stg)).isSome with
          | true => exact Or.inl ⟨hk, rfl⟩
          | false =>
            have hkm : k ∈ (cacheProbe s loc stg ([], []) cids).2 := (hp2 k).mpr ⟨hk, hhit⟩
            exact Or.inr (contains_iff.mp (hall k hkm))
    case isFalse hsm =>
      simp only [Except.ok.injEq] at hget
      have hres := congrArg Prod.fst hget
      subst hres
      rw [insertAll_keys, insertAll_keys, hp1 k]
      constructor
      · rintro ((⟨hk, hh⟩ | hT) | hV)
        · exact ⟨hk, Or.inl hh⟩
        · obtain ⟨r, hr, rfl⟩ := List.mem_map.mp hT
          obtain ⟨hrmem, hpred⟩ := List.mem_filter.mp hr
          simp only [Bool.and_eq_true, beq_iff_eq, contains_iff] at hpred
          obtain ⟨⟨⟨⟨hcon, hloc2⟩, hstg2⟩, hact2⟩, hver2⟩ := hpred
          have hkcids : r.ComponentID ∈ cids := ((hp2 _).mp hcon).1
          refine ⟨hkcids, Or.inr ⟨r, hrmem, rfl, hloc2, hstg2, hact2, Or.inl ?_⟩⟩
          exact hver2
        · obtain ⟨r, hr, rfl⟩ := List.mem_map.mp hV
          obtain ⟨hrmem, hpred⟩ := List.mem_filter.mp hr
          simp only [Bool.and_eq_true, beq_iff_eq, contains_iff] at hpred
          obtain ⟨⟨⟨⟨hcon, hloc2⟩, hstg2⟩, hact2⟩, hver2⟩ := hpred
          have hmiss : r.ComponentID ∈ (cacheProbe s loc stg ([], []) cids).2 :=
            List.mem_of_mem_filter hcon
          have hkcids : r.ComponentID ∈ cids := ((hp2 _).mp hmiss).1
          refine ⟨hkcids, Or.inr ⟨r, hrmem, rfl, hloc2, hstg2, hact2, Or.inr ?_⟩⟩
          exact hver2
      · rintro ⟨hk, hh | ⟨r, hrmem, hrk, hloc2, hstg2, hact2, hver2⟩⟩
        · exact Or.inl (Or.inl ⟨hk, hh⟩)
        · cases hhit : (cacheGet s.cache (translationKey k loc stg)).isSome with
          | true => exact Or.inl (Or.inl ⟨hk, rfl⟩)
          | false =>
            have hkm : k ∈ (cacheProbe s loc stg ([], []) cids).2 := (hp2 k).mpr ⟨hk, hhit⟩
            by_cases hfound : ((List.filter (fun r =>
                (cacheProbe s loc stg ([], []) cids).2.contains r.ComponentID &&
                  r.Locale == loc && r.Stage == stg && r.IsActive && r.Version == 2)
                s.rows).map (fun t => t.ComponentID)).contains k = true
            · exact Or.inl (Or.inr (contains_iff.mp hfound))
            · cases hver2 with
              | inl hver2 =>
                exfalso
                apply hfound
                apply contains_iff.mpr
                refine List.mem_map.mpr ⟨r, List.mem_filter.mpr ⟨hrmem, ?_⟩, hrk⟩
                simp only [Bool.and_eq_true, beq_iff_eq, contains_iff]
                exact ⟨⟨⟨⟨hrk ▸ hkm, hloc2⟩, hstg2⟩, hact2⟩, by simp [hver2]⟩
              | inr hver2 =>
                have hfoundf : ((List.filter (fun r =>
                    (cacheProbe s loc stg ([], []) cids).2.contains r.ComponentID &&
                      r.Locale == loc && r.Stage == stg && r.IsActive && r.Version == 2)
                    s.rows).map (fun t => t.ComponentID)).contains k = false := by
                  revert hfound
                  cases ((List.filter (fun r =>
                    (cacheProbe s loc stg ([], []) cids).2.contains r.ComponentID &&
                      r.Locale == loc && r.Stage == stg && r.IsActive && r.Version == 2)
                    s.rows).map (fun t => t.ComponentID)).contains k <;> simp
                have hsmk : k ∈ (cacheProbe s loc stg ([], []) cids).2.filter
                    (fun cid => !((List.filter (fun r =>
                      (cacheProbe s loc stg ([], []) cids).2.contains r.ComponentID &&
                        r.Locale == loc && r.Stage == stg && r.IsActive && r.Version == 2)
                      s.rows).map (fun t => t.ComponentID)).contains cid) :=
                  List.mem_filter.mpr ⟨hkm, by rw [hfoundf]; rfl⟩
                refine Or.inr ?_
                refine List.mem_map.mpr ⟨r, List.mem_filter.mpr ⟨hrmem, ?_⟩, hrk⟩
                simp only [Bool.and_eq_true, beq_iff_eq, contains_iff]
                exact ⟨⟨⟨⟨hrk ▸ hsmk, hloc2⟩, hstg2⟩, hact2⟩, by simp [hver2]⟩

/-- Witness for C6 on a concrete store: `"c2"`, which has only a slot-1
row, is in the result key set of a bulk read for `["c1", "c2", "c3"]`. -/
theorem c6_witness :
    "c2" ∈ ([("c1", c4Row), ("c2", c6RowV1)].map Prod.fst) ↔
      ("c2" ∈ ["c1", "c2", "c3"] ∧
        ((cacheGet c6Store.cache (translationKey "c2" "en" "draft")).isSome = true ∨
          ∃ r ∈ c6Store.rows, r.ComponentID = "c2" ∧ r.Locale = "en" ∧ r.Stage = "draft" ∧
            r.IsActive = true ∧ (r.Version = 2 ∨ r.Version = 1))) :=
  c6_bulk_read_key_set c6Store ["c1", "c2", "c3"] "en" "draft"
    [("c1", c4Row), ("c2", c6RowV1)]
    ⟨[c4Row, c6RowV1], 4,
     [(translationKey "c2" "en" "draft", c6RowV1), (translationKey "c1" "en" "draft", c4Row)]⟩
    rfl "c2"

/-!
Concrete behavior checks, including the extraction test vectors from
`translation_service_test.go`.
-/

example : ExtractTemplateValues "Hi [last_name]!".toList = ["last_name".toList] := by decide
example : ExtractTemplateValues "Hello [first_name] [last_name], welcome!".toList
    = ["first_name".toList, "last_name".toList] := by decide
example : ExtractTemplateValues "Value [outer[inner]]".toList = ["outer[inner".toList] := by decide
example : ExtractTemplateValues "Hello world".toList = [] := by decide
example : ExtractTemplateValues "[]".toList = [] := by decide
example : PreserveTemplateValues "Hi [name]!".toList "Hola!".toList = "Hola!".toList := by decide
example : PreserveTemplateValues "Hi [name]!".toList "Hola [nombre]!".toList
    = "Hola [name]!".toList := by decide
example : PreserveTemplateValues "Hi [x] [b]".toList "[x] [x]".toList = "[b] [x]".toList := by decide
example : positionalRestore "Hi [x] [b]".toList "[x] [x]".toList = "[x] [b]".toList := by decide

end I18n
